import Mathlib

/-!
Verification of the cryptography toolkit of `dyq666/util`
(`src/util/third_cryptography.py`), a thin composition layer over an external
cryptographic primitives library.

The embedding keeps everything the repository's own code decides concrete:
the exception hierarchy, the constructor's key/IV size check, PKCS7 padding
and unpadding with 16-byte blocks, CBC chaining, the parameters handed to the
RSA primitives, and the try/except structure of signature verification.
The external primitives themselves (the keyed AES block permutation, the RSA
OAEP/PSS operations, PEM serialization) are parameters of the development:
theorems about behaviour that depends on them take the library's documented
contract as an explicit hypothesis, and concrete demo instances discharge
those hypotheses for witnesses.

Bytes are `List Nat`; randomness consumed by the library (token_bytes, OAEP
seeds, PSS salts, PBES2 salts) is threaded as an explicit argument.
-/

/-- Python exception classes reachable from `third_cryptography.py`:
the module's own `CryptoException` root and `SizeException`, plus the
exceptions the external `cryptography` library raises (`ValueError` on bad
ciphertext length / padding / PEM data, `InvalidSignature` on verification
failure). -/
inductive PyExc
  | CryptoException
  | SizeException
  | ValueError
  | InvalidSignature
deriving DecidableEq, Repr

/-- The subclass relation of the module's exception classes: `SizeException`
is declared as a subclass of `CryptoException`; the library exceptions are
unrelated to the module's `CryptoException` root. -/
def PyExc.isSubclassOf : PyExc → PyExc → Bool
  | .SizeException, .CryptoException => true
  | a, b => a == b

instance {ε α : Type} [DecidableEq ε] [DecidableEq α] : DecidableEq (Except ε α) := fun a b =>
  match a, b with
  | .ok x, .ok y =>
      if h : x = y then isTrue (by rw [h])
      else isFalse (fun hc => h (Except.ok.inj hc))
  | .error x, .error y =>
      if h : x = y then isTrue (by rw [h])
      else isFalse (fun hc => h (Except.error.inj hc))
  | .ok _, .error _ => isFalse (fun hc => Except.noConfusion hc)
  | .error _, .ok _ => isFalse (fun hc => Except.noConfusion hc)

/-- Byte strings as lists of naturals (each byte a `Nat`). -/
abbrev Bytes := List Nat

/-- Bytewise xor of two equal-length buffers (CBC chaining step). -/
def xorBytes (a b : Bytes) : Bytes :=
  List.zipWith (fun x y => x ^^^ y) a b

/-- Split a byte string into consecutive 16-byte blocks; `fuel` bounds the
recursion and is instantiated with the length of the input. -/
def chunksAux : Nat → Bytes → List Bytes
  | 0, _ => []
  | _, [] => []
  | fuel + 1, l => l.take 16 :: chunksAux fuel (l.drop 16)

/-- Split a byte string into consecutive 16-byte blocks. -/
def chunks16 (l : Bytes) : List Bytes :=
  chunksAux l.length l

namespace AES

/-- `AES.KEY_SIZES = {16, 24, 32}` from the source. -/
def KEY_SIZES : List Nat := [16, 24, 32]

/-- `AES.BLOCK_SIZE = 16` from the source. -/
def BLOCK_SIZE : Nat := 16

end AES

/-- PKCS7 padding with 16-byte blocks, as the library's
`padding.PKCS7(128).padder()` performs it: append `p = 16 - len % 16` copies
of the byte `p` (a full extra block when the input is already aligned). -/
def pkcs7Pad (msg : Bytes) : Bytes :=
  let p := AES.BLOCK_SIZE - msg.length % AES.BLOCK_SIZE
  msg ++ List.replicate p p

/-- Well-formedness of PKCS7 padding: the last byte `p` is between 1 and 16
and the last `p` bytes all equal `p`. -/
def pkcs7PaddingOk (data : Bytes) : Bool :=
  let p := data.getD (data.length - 1) 0
  decide (1 ≤ p) && decide (p ≤ 16) &&
    decide (data.drop (data.length - p) = List.replicate p p)

/-- PKCS7 unpadding as the library's `unpadder()` performs it: the buffer
must be a nonempty multiple of 16 bytes and carry well-formed padding,
otherwise a `ValueError` is raised; on success the padding bytes are
removed. -/
def pkcs7Unpad (data : Bytes) : Except PyExc Bytes :=
  if data.length = 0 ∨ data.length % AES.BLOCK_SIZE ≠ 0 then
    .error .ValueError
  else if pkcs7PaddingOk data then
    .ok (data.take (data.length - data.getD (data.length - 1) 0))
  else
    .error .ValueError

/-- CBC encryption over a list of 16-byte blocks: each plaintext block is
xored with the previous ciphertext block (initially the IV) and sent through
the keyed block permutation `E`. -/
def cbcEncryptBlocks (E : Bytes → Bytes) : Bytes → List Bytes → List Bytes
  | _, [] => []
  | prev, b :: bs =>
      let c := E (xorBytes prev b)
      c :: cbcEncryptBlocks E c bs

/-- CBC decryption over a list of 16-byte blocks: each ciphertext block is
sent through the inverse permutation `D` and xored with the previous
ciphertext block (initially the IV). -/
def cbcDecryptBlocks (D : Bytes → Bytes) : Bytes → List Bytes → List Bytes
  | _, [] => []
  | prev, c :: cs => xorBytes prev (D c) :: cbcDecryptBlocks D c cs

/-- The state `AES.__init__` stores on success: the key and IV baked into the
cipher context (`Cipher(AES(key), CBC(iv))`). -/
structure AESInst where
  key : Bytes
  iv : Bytes
deriving DecidableEq, Repr

namespace AES

/-- `AES.__init__`: raise `SizeException` unless the key length is one of
`KEY_SIZES` and the IV length is `BLOCK_SIZE`; otherwise build the cipher
context. -/
def init (key iv : Bytes) : Except PyExc AESInst :=
  if key.length ∉ KEY_SIZES ∨ iv.length ≠ BLOCK_SIZE then
    .error .SizeException
  else
    .ok ⟨key, iv⟩

/-- `AES.encrypt`: PKCS7-pad the message, then CBC-encrypt the padded buffer
under the instance's key and IV. The keyed block permutation `aesE`
(`key → block → block`) stands for the external library's AES encryption of
one 16-byte block. -/
def encrypt (aesE : Bytes → Bytes → Bytes) (self : AESInst) (msg : Bytes) : Bytes :=
  (cbcEncryptBlocks (aesE self.key) self.iv (chunks16 (pkcs7Pad msg))).flatten

/-- `AES.decrypt`: CBC-decrypt, then PKCS7-unpad. The library's decryptor
raises `ValueError` when the ciphertext length is not a multiple of the block
size; the unpadder raises `ValueError` on malformed padding. `aesD` stands
for the external library's AES decryption of one 16-byte block. -/
def decrypt (aesD : Bytes → Bytes → Bytes) (self : AESInst) (msg : Bytes) :
    Except PyExc Bytes :=
  if msg.length % BLOCK_SIZE ≠ 0 then
    .error .ValueError
  else
    pkcs7Unpad ((cbcDecryptBlocks (aesD self.key) self.iv (chunks16 msg)).flatten)

/-- `secrets.token_bytes(n)`: `n` bytes drawn from the CSPRNG stream `s`. -/
def tokenBytes (s : Nat → Nat) (n : Nat) : Bytes :=
  (List.range n).map s

/-- `AES.generate_key`: a key of `key_size` bytes and an IV of `BLOCK_SIZE`
bytes, both drawn from the CSPRNG (modelled as the streams `s1`, `s2`).
The source performs no validation of `key_size`. -/
def generate_key (s1 s2 : Nat → Nat) (key_size : Nat := 32) : Bytes × Bytes :=
  (tokenBytes s1 key_size, tokenBytes s2 BLOCK_SIZE)

end AES

/-- A fixed demo key (32 bytes) for concrete evaluations. -/
def keyDemo : Bytes := List.replicate 32 7

/-- A fixed demo IV (16 bytes) for concrete evaluations. -/
def ivDemo : Bytes := List.replicate 16 9

/-- The cipher instance `AES.init keyDemo ivDemo` constructs. -/
def instDemo : AESInst := ⟨keyDemo, ivDemo⟩

/-- A second instance built from equal key and IV bytes. -/
def instDemo2 : AESInst := ⟨List.replicate 32 7, List.replicate 16 9⟩

example : AES.init keyDemo ivDemo = .ok instDemo := by decide

example : AES.decrypt (fun _ b => b) instDemo
    (AES.encrypt (fun _ b => b) instDemo [1, 2, 3]) = .ok [1, 2, 3] := by decide

example : (AES.encrypt (fun _ b => b) instDemo [1, 2, 3]).length = 16 := by decide

example : AES.decrypt (fun _ b => b) instDemo [1] = .error .ValueError := by decide

/-! ### Helper lemmas about xor, chunking, padding and CBC -/

theorem xorBytes_length (a b : Bytes) : (xorBytes a b).length = min a.length b.length := by
  simp [xorBytes]

theorem xorBytes_xorBytes (a b : Bytes) (h : a.length = b.length) :
    xorBytes a (xorBytes a b) = b := by
  induction a generalizing b with
  | nil =>
      cases b with
      | nil => rfl
      | cons y ys => simp at h
  | cons x xs ih =>
      cases b with
      | nil => simp at h
      | cons y ys =>
          simp only [List.length_cons, Nat.add_right_cancel_iff] at h
          simp only [xorBytes, List.zipWith_cons_cons] at *
          rw [← Nat.xor_assoc, Nat.xor_self, Nat.zero_xor]
          exact congrArg (y :: ·) (ih ys h)

theorem chunksAux_flatten :
    ∀ (fuel : Nat) (l : Bytes), l.length ≤ fuel → (chunksAux fuel l).flatten = l := by
  intro fuel
  induction fuel with
  | zero =>
      intro l h
      have : l = [] := List.eq_nil_of_length_eq_zero (Nat.le_zero.mp h)
      subst this
      rfl
  | succ f ih =>
      intro l h
      cases l with
      | nil => rfl
      | cons a rest =>
          have hlen : ((a :: rest).drop 16).length ≤ f := by
            simp only [List.length_drop, List.length_cons]
            simp only [List.length_cons] at h
            omega
          simp only [chunksAux, List.flatten_cons, ih _ hlen, List.take_append_drop]

theorem chunksAux_mem_length :
    ∀ (fuel : Nat) (l : Bytes), l.length % 16 = 0 →
      ∀ b ∈ chunksAux fuel l, b.length = 16 := by
  intro fuel
  induction fuel with
  | zero => intro l _ b hb; simp [chunksAux] at hb
  | succ f ih =>
      intro l hl b hb
      cases l with
      | nil => simp [chunksAux] at hb
      | cons a rest =>
          have h16 : 16 ≤ (a :: rest).length := by
            simp only [List.length_cons]
            simp only [List.length_cons] at hl
            omega
          simp only [chunksAux, List.mem_cons] at hb
          rcases hb with rfl | hb
          · simp only [List.length_take]
            omega
          · refine ih _ ?_ b hb
            simp only [List.length_drop]
            simp only [List.length_cons] at hl h16 ⊢
            omega

theorem flatten_blocks_length (bs : List Bytes) (h : ∀ b ∈ bs, b.length = 16) :
    bs.flatten.length = 16 * bs.length := by
  induction bs with
  | nil => simp
  | cons b bs ih =>
      simp only [List.flatten_cons, List.length_append, List.length_cons]
      rw [h b (by simp), ih (fun x hx => h x (by simp [hx]))]
      ring

theorem chunksAux_cons_block (f : Nat) (b rest : Bytes) (hb : b.length = 16) :
    chunksAux (f + 1) (b ++ rest) = b :: chunksAux f rest := by
  cases b with
  | nil => simp at hb
  | cons x xs =>
      rw [List.cons_append]
      simp only [chunksAux]
      rw [← List.cons_append, show (16 : Nat) = (x :: xs).length from hb.symm,
        List.take_left, List.drop_left]

theorem chunksAux_of_blocks :
    ∀ (bs : List Bytes) (fuel : Nat), (∀ b ∈ bs, b.length = 16) →
      bs.flatten.length ≤ fuel → chunksAux fuel bs.flatten = bs := by
  intro bs
  induction bs with
  | nil =>
      intro fuel _ _
      cases fuel <;> rfl
  | cons b bs ih =>
      intro fuel hb hfuel
      have hb16 : b.length = 16 := hb b (by simp)
      have hflatlen : (b :: bs).flatten.length = 16 + bs.flatten.length := by
        simp [List.flatten_cons, hb16]
      cases fuel with
      | zero => omega
      | succ f =>
          rw [List.flatten_cons, chunksAux_cons_block f b bs.flatten hb16]
          refine congrArg (b :: ·) (ih f (fun y hy => hb y (by simp [hy])) ?_)
          rw [hflatlen] at hfuel
          omega

theorem cbcEncryptBlocks_spec (E : Bytes → Bytes)
    (hE : ∀ b, b.length = 16 → (E b).length = 16) :
    ∀ (bs : List Bytes) (prev : Bytes), prev.length = 16 → (∀ b ∈ bs, b.length = 16) →
      (∀ c ∈ cbcEncryptBlocks E prev bs, c.length = 16) ∧
      (cbcEncryptBlocks E prev bs).length = bs.length := by
  intro bs
  induction bs with
  | nil => intro prev _ _; exact ⟨fun c hc => by simp [cbcEncryptBlocks] at hc, rfl⟩
  | cons b bs ih =>
      intro prev hprev hbs
      have hxl : (xorBytes prev b).length = 16 := by
        rw [xorBytes_length, hprev, hbs b (by simp)]
        omega
      have hcl : (E (xorBytes prev b)).length = 16 := hE _ hxl
      obtain ⟨ih1, ih2⟩ := ih (E (xorBytes prev b)) hcl (fun x hx => hbs x (by simp [hx]))
      constructor
      · intro c hc
        simp only [cbcEncryptBlocks, List.mem_cons] at hc
        rcases hc with rfl | hc
        · exact hcl
        · exact ih1 c hc
      · simp only [cbcEncryptBlocks, List.length_cons, ih2]

theorem cbcDecrypt_cbcEncrypt (E D : Bytes → Bytes)
    (hED : ∀ b, b.length = 16 → D (E b) = b)
    (hE : ∀ b, b.length = 16 → (E b).length = 16) :
    ∀ (bs : List Bytes) (prev : Bytes), prev.length = 16 → (∀ b ∈ bs, b.length = 16) →
      cbcDecryptBlocks D prev (cbcEncryptBlocks E prev bs) = bs := by
  intro bs
  induction bs with
  | nil => intro prev _ _; rfl
  | cons b bs ih =>
      intro prev hprev hbs
      have hb : b.length = 16 := hbs b (by simp)
      have hxl : (xorBytes prev b).length = 16 := by
        rw [xorBytes_length, hprev, hb]
        omega
      have hcl : (E (xorBytes prev b)).length = 16 := hE _ hxl
      simp only [cbcEncryptBlocks, cbcDecryptBlocks]
      rw [hED _ hxl, xorBytes_xorBytes prev b (by rw [hprev, hb]),
        ih (E (xorBytes prev b)) hcl (fun x hx => hbs x (by simp [hx]))]

theorem pkcs7Pad_length (m : Bytes) :
    (pkcs7Pad m).length = m.length + (16 - m.length % 16) := by
  simp [pkcs7Pad, AES.BLOCK_SIZE]

theorem pkcs7Pad_mod (m : Bytes) : (pkcs7Pad m).length % 16 = 0 := by
  rw [pkcs7Pad_length]
  omega

theorem pkcs7Pad_def (m : Bytes) :
    pkcs7Pad m = m ++ List.replicate (16 - m.length % 16) (16 - m.length % 16) := rfl

theorem pkcs7Unpad_pad (m : Bytes) : pkcs7Unpad (pkcs7Pad m) = .ok m := by
  have hp1 : 1 ≤ 16 - m.length % 16 := by omega
  have hp16 : 16 - m.length % 16 ≤ 16 := by omega
  have hlen : (pkcs7Pad m).length = m.length + (16 - m.length % 16) := pkcs7Pad_length m
  have hlast : (pkcs7Pad m).getD ((pkcs7Pad m).length - 1) 0 = 16 - m.length % 16 := by
    rw [hlen, pkcs7Pad_def]
    rw [List.getD_append_right m _ 0 _ (by omega)]
    have hidx : m.length + (16 - m.length % 16) - 1 - m.length < 16 - m.length % 16 := by
      omega
    simp [List.getD, List.getElem?_replicate, hidx]
  have hdrop : (pkcs7Pad m).drop ((pkcs7Pad m).length - (16 - m.length % 16)) =
      List.replicate (16 - m.length % 16) (16 - m.length % 16) := by
    rw [hlen, show m.length + (16 - m.length % 16) - (16 - m.length % 16) =
      m.length from by omega, pkcs7Pad_def]
    exact List.drop_left m _
  have htake : (pkcs7Pad m).take ((pkcs7Pad m).length - (16 - m.length % 16)) = m := by
    rw [hlen, show m.length + (16 - m.length % 16) - (16 - m.length % 16) =
      m.length from by omega, pkcs7Pad_def]
    exact List.take_left m _
  have hok : pkcs7PaddingOk (pkcs7Pad m) = true := by
    simp only [pkcs7PaddingOk, hlast, Bool.and_eq_true, decide_eq_true_eq]
    exact ⟨⟨hp1, hp16⟩, hdrop⟩
  have hcond : ¬((pkcs7Pad m).length = 0 ∨ (pkcs7Pad m).length % AES.BLOCK_SIZE ≠ 0) := by
    simp only [AES.BLOCK_SIZE, hlen]
    omega
  unfold pkcs7Unpad
  rw [if_neg hcond, if_pos hok, hlast, htake]

theorem AES.init_ok (key iv : Bytes) (inst : AESInst) (h : AES.init key iv = .ok inst) :
    inst = ⟨key, iv⟩ ∧ key.length ∈ AES.KEY_SIZES ∧ iv.length = 16 := by
  unfold AES.init at h
  by_cases hc : key.length ∉ AES.KEY_SIZES ∨ iv.length ≠ AES.BLOCK_SIZE
  · rw [if_pos hc] at h
    exact absurd h (by simp)
  · rw [if_neg hc] at h
    push_neg at hc
    exact ⟨(Except.ok.inj h).symm, hc.1, hc.2⟩

theorem aes_decrypt_encrypt (aesE aesD : Bytes → Bytes → Bytes) (inst : AESInst)
    (hiv : inst.iv.length = 16)
    (hED : ∀ b, b.length = 16 → aesD inst.key (aesE inst.key b) = b)
    (hE : ∀ b, b.length = 16 → (aesE inst.key b).length = 16)
    (m : Bytes) :
    AES.decrypt aesD inst (AES.encrypt aesE inst m) = .ok m := by
  have hpadmod : (pkcs7Pad m).length % 16 = 0 := pkcs7Pad_mod m
  have hchunks : ∀ b ∈ chunks16 (pkcs7Pad m), b.length = 16 :=
    chunksAux_mem_length _ _ hpadmod
  have hflat : (chunks16 (pkcs7Pad m)).flatten = pkcs7Pad m :=
    chunksAux_flatten _ _ le_rfl
  obtain ⟨henc16, _⟩ :=
    cbcEncryptBlocks_spec (aesE inst.key) hE (chunks16 (pkcs7Pad m)) inst.iv hiv hchunks
  have hctlen : (AES.encrypt aesE inst m).length =
      16 * (cbcEncryptBlocks (aesE inst.key) inst.iv (chunks16 (pkcs7Pad m))).length := by
    rw [AES.encrypt]
    exact flatten_blocks_length _ henc16
  have hctmod : (AES.encrypt aesE inst m).length % 16 = 0 := by
    rw [hctlen]
    omega
  have hchunksct : chunks16 (AES.encrypt aesE inst m) =
      cbcEncryptBlocks (aesE inst.key) inst.iv (chunks16 (pkcs7Pad m)) := by
    rw [chunks16, AES.encrypt]
    exact chunksAux_of_blocks _ _ henc16 le_rfl
  rw [AES.decrypt, if_neg (by simp only [AES.BLOCK_SIZE]; omega), hchunksct,
    cbcDecrypt_cbcEncrypt (aesE inst.key) (aesD inst.key) hED hE _ inst.iv hiv hchunks,
    hflat, pkcs7Unpad_pad]

/-! ### RSA: the wrapper composes an external library

`RSAPrivate` / `RSAPublic` in the source hold an opaque key object and forward
every operation to the `cryptography` library, choosing the padding and hash
parameters. The library is modelled as a structure of abstract operations over
abstract key handles (`Nat`); what the repository's code determines — and what
the theorems below check — is which parameters each wrapper method passes. -/

/-- Hash algorithms mentioned by the source (`hashes.SHA256()`). -/
inductive HashAlg
  | SHA256
deriving DecidableEq, Repr

/-- Mask generation functions (`asy_padding.MGF1(algorithm)`). -/
inductive MGF
  | MGF1 (algorithm : HashAlg)
deriving DecidableEq, Repr

/-- The `asy_padding.OAEP(mgf, algorithm, label)` parameter record. -/
structure OAEPParams where
  mgf : MGF
  algorithm : HashAlg
  label : Option Bytes
deriving DecidableEq, Repr

/-- PSS salt length: `PSS.MAX_LENGTH` or an explicit byte count. -/
inductive SaltLen
  | MAX_LENGTH
  | fixedLen (n : Nat)
deriving DecidableEq, Repr

/-- The `asy_padding.PSS(mgf, salt_length)` parameter record. -/
structure PSSParams where
  mgf : MGF
  salt_length : SaltLen
deriving DecidableEq, Repr

/-- The PKCS8 encryption algorithm chosen by `format_pem`:
`serialization.NoEncryption()` or `serialization.BestAvailableEncryption(pw)`. -/
inductive EncAlg
  | NoEncryption
  | BestAvailableEncryption (password : Bytes)
deriving DecidableEq, Repr

/-- The externally supplied RSA primitives library, over abstract key handles.
`rand` arguments make the randomness the library consumes (OAEP seed, PSS
salt, PBES2 salt) explicit. `publicOf` maps a private key handle to its
public counterpart. -/
structure RSALib where
  maxMsgLen : Nat
  rsaEncrypt : Nat → OAEPParams → Bytes → Nat → Bytes
  rsaDecrypt : Nat → OAEPParams → Bytes → Except PyExc Bytes
  rsaSign : Nat → PSSParams → HashAlg → Bytes → Nat → Bytes
  rsaVerifyRaw : Nat → PSSParams → HashAlg → Bytes → Bytes → Except PyExc Unit
  publicOf : Nat → Nat
  privateBytes : Nat → EncAlg → Nat → Bytes
  loadPemPrivateKey : Bytes → Option Bytes → Except PyExc Nat

/-- The OAEP parameters the source passes on BOTH the encrypt and the decrypt
side: `OAEP(mgf=MGF1(SHA256()), algorithm=SHA256(), label=None)`. -/
def oaepSha256 : OAEPParams :=
  { mgf := .MGF1 .SHA256, algorithm := .SHA256, label := none }

/-- The PSS parameters the source passes on BOTH the sign and the verify side:
`PSS(mgf=MGF1(SHA256()), salt_length=PSS.MAX_LENGTH)`. -/
def pssMaxSha256 : PSSParams :=
  { mgf := .MGF1 .SHA256, salt_length := .MAX_LENGTH }

/-- `RSAPrivate`: holds the private key object. -/
structure RSAPrivate where
  key : Nat
deriving DecidableEq, Repr

/-- `RSAPublic`: holds the public key object. -/
structure RSAPublic where
  key : Nat
deriving DecidableEq, Repr

/-- `RSAPrivate.decrypt`: OAEP decryption with MGF1(SHA-256), SHA-256, no
label. -/
def RSAPrivate.decrypt (L : RSALib) (self : RSAPrivate) (msg : Bytes) :
    Except PyExc Bytes :=
  L.rsaDecrypt self.key oaepSha256 msg

/-- `RSAPrivate.sign`: PSS signing with MGF1(SHA-256), maximum salt length,
SHA-256. -/
def RSAPrivate.sign (L : RSALib) (self : RSAPrivate) (msg : Bytes) (rand : Nat) : Bytes :=
  L.rsaSign self.key pssMaxSha256 .SHA256 msg rand

/-- `RSAPrivate.format_pem`: PKCS8 PEM serialization; `NoEncryption` without a
password, `BestAvailableEncryption(password)` with one. -/
def RSAPrivate.format_pem (L : RSALib) (self : RSAPrivate) (password : Option Bytes)
    (rand : Nat) : Bytes :=
  L.privateBytes self.key
    (match password with
     | none => .NoEncryption
     | some p => .BestAvailableEncryption p)
    rand

/-- `RSAPrivate.load_pem`: forwards to `load_pem_private_key`; nothing is
caught or translated, so whatever the library raises propagates unchanged. -/
def RSAPrivate.load_pem (L : RSALib) (msg : Bytes) (password : Option Bytes) :
    Except PyExc RSAPrivate :=
  (L.loadPemPrivateKey msg password).map RSAPrivate.mk

/-- `RSAPublic.encrypt`: OAEP encryption with MGF1(SHA-256), SHA-256, no
label. -/
def RSAPublic.encrypt (L : RSALib) (self : RSAPublic) (msg : Bytes) (rand : Nat) : Bytes :=
  L.rsaEncrypt self.key oaepSha256 msg rand

/-- `RSAPublic.verify`: calls the library's verify inside
`try: ...; return True / except InvalidSignature: return False`. Only
`InvalidSignature` is caught; any other exception would propagate. -/
def RSAPublic.verify (L : RSALib) (self : RSAPublic) (signature msg : Bytes) :
    Except PyExc Bool :=
  match L.rsaVerifyRaw self.key pssMaxSha256 .SHA256 signature msg with
  | .ok _ => .ok true
  | .error .InvalidSignature => .ok false
  | .error e => .error e

/-- A concrete instantiation of the library interface, used to evaluate the
wrapper code on explicit inputs: encryption and signing are the identity on
the message, verification compares the signature to the message, and PEM
serialization tags the key (with the PBES2 salt baked into the encrypted
form, as with the real `BestAvailableEncryption`). -/
def libDemo : RSALib where
  maxMsgLen := 190
  rsaEncrypt := fun _ _ m _ => m
  rsaDecrypt := fun _ _ c => .ok c
  rsaSign := fun _ _ _ m _ => m
  rsaVerifyRaw := fun _ _ _ s m => if s = m then .ok () else .error .InvalidSignature
  publicOf := fun k => k
  privateBytes := fun k alg r =>
    match alg with
    | .NoEncryption => [0, k]
    | .BestAvailableEncryption pw => 1 :: r :: k :: pw
  loadPemPrivateKey := fun data pw =>
    match data, pw with
    | [0, k], none => .ok k
    | 1 :: _ :: k :: rest, some q => if rest = q then .ok k else .error .ValueError
    | _, _ => .error .ValueError

example : RSAPrivate.decrypt libDemo ⟨5⟩ (RSAPublic.encrypt libDemo ⟨5⟩ [1, 2] 0) =
    .ok [1, 2] := by decide

example : RSAPublic.verify libDemo ⟨5⟩ (RSAPrivate.sign libDemo ⟨5⟩ [3, 4] 0) [3, 4] =
    .ok true := by decide

example : RSAPrivate.load_pem libDemo
    (RSAPrivate.format_pem libDemo ⟨5⟩ (some [7]) 0) (some [8]) = .error .ValueError := by
  decide

/-! ### Claims -/

/-- C1: for every byte buffer `m` and every valid (key, iv) pair accepted by
the `AES` constructor, decrypting the encryption of `m` with the same key and
IV returns `m`. The external AES block permutation is abstract: the
hypotheses state that, at this key, block decryption inverts block encryption
and block encryption preserves the 16-byte block length (true of AES). -/
theorem aes_cbc_round_trip (aesE aesD : Bytes → Bytes → Bytes) (key iv : Bytes)
    (inst : AESInst) (hinit : AES.init key iv = .ok inst)
    (hED : ∀ b, b.length = 16 → aesD key (aesE key b) = b)
    (hE : ∀ b, b.length = 16 → (aesE key b).length = 16)
    (m : Bytes) :
    AES.decrypt aesD inst (AES.encrypt aesE inst m) = .ok m := by
  obtain ⟨rfl, _, hiv⟩ := AES.init_ok key iv inst hinit
  exact aes_decrypt_encrypt aesE aesD ⟨key, iv⟩ hiv hED hE m

/-- Witness for C1: the identity block permutation, the demo 32-byte key and
16-byte IV, and the 3-byte message `[1, 2, 3]`. -/
theorem aes_cbc_round_trip_witness :
    AES.init keyDemo ivDemo = .ok instDemo ∧
    AES.decrypt (fun _ b => b) instDemo
      (AES.encrypt (fun _ b => b) instDemo [1, 2, 3]) = .ok [1, 2, 3] :=
  ⟨by decide,
   aes_cbc_round_trip (fun _ b => b) (fun _ b => b) keyDemo ivDemo instDemo
     (by decide) (fun _ _ => rfl) (fun _ hb => hb) [1, 2, 3]⟩

/-- C3: the ciphertext length is `len(m) + (16 - len(m) % 16)`; in
particular it is a multiple of 16 and strictly greater than the input length
(a full extra block when the input is already aligned). The block
permutation is only assumed to preserve the 16-byte block length. -/
theorem aes_encrypt_padding_growth (aesE : Bytes → Bytes → Bytes) (key iv : Bytes)
    (inst : AESInst) (hinit : AES.init key iv = .ok inst)
    (hE : ∀ b, b.length = 16 → (aesE key b).length = 16)
    (m : Bytes) :
    (AES.encrypt aesE inst m).length = m.length + (16 - m.length % 16) ∧
    (AES.encrypt aesE inst m).length % 16 = 0 ∧
    m.length < (AES.encrypt aesE inst m).length := by
  obtain ⟨rfl, _, hiv⟩ := AES.init_ok key iv inst hinit
  have hpadmod : (pkcs7Pad m).length % 16 = 0 := pkcs7Pad_mod m
  have hchunks : ∀ b ∈ chunks16 (pkcs7Pad m), b.length = 16 :=
    chunksAux_mem_length _ _ hpadmod
  have hflat : (chunks16 (pkcs7Pad m)).flatten = pkcs7Pad m :=
    chunksAux_flatten _ _ le_rfl
  obtain ⟨henc16, hcount⟩ :=
    cbcEncryptBlocks_spec (aesE key) hE (chunks16 (pkcs7Pad m)) iv hiv hchunks
  have h1 : (AES.encrypt aesE ⟨key, iv⟩ m).length = 16 * (chunks16 (pkcs7Pad m)).length := by
    rw [AES.encrypt, flatten_blocks_length _ henc16, hcount]
  have h2 : (pkcs7Pad m).length = 16 * (chunks16 (pkcs7Pad m)).length := by
    conv_lhs => rw [← hflat]
    exact flatten_blocks_length _ hchunks
  have h3 : (AES.encrypt aesE ⟨key, iv⟩ m).length = m.length + (16 - m.length % 16) := by
    rw [h1, ← h2, pkcs7Pad_length]
  refine ⟨h3, by rw [h3]; omega, by rw [h3]; omega⟩

/-- Witness for C3: the identity block permutation, the demo key/IV, and the
3-byte message; the ciphertext has 3 + 13 = 16 bytes. -/
theorem aes_encrypt_padding_growth_witness :
    AES.init keyDemo ivDemo = .ok instDemo ∧
    ((AES.encrypt (fun _ b => b) instDemo [1, 2, 3]).length =
      [1, 2, 3].length + (16 - [1, 2, 3].length % 16) ∧
    (AES.encrypt (fun _ b => b) instDemo [1, 2, 3]).length % 16 = 0 ∧
    [1, 2, 3].length < (AES.encrypt (fun _ b => b) instDemo [1, 2, 3]).length) :=
  ⟨by decide,
   aes_encrypt_padding_growth (fun _ b => b) keyDemo ivDemo instDemo
     (by decide) (fun _ hb => hb) [1, 2, 3]⟩

/-- C4: construction succeeds exactly when the key length is 16, 24 or 32
and the IV length is 16; on violation it fails with `SizeException` and no
cipher context is produced. -/
theorem symmetric_cipher_ctor_sizes (key iv : Bytes) :
    ((∃ inst, AES.init key iv = .ok inst) ↔
      ((key.length = 16 ∨ key.length = 24 ∨ key.length = 32) ∧ iv.length = 16)) ∧
    ((∃ inst, AES.init key iv = .ok inst) ∨ AES.init key iv = .error .SizeException) := by
  have hmem : (key.length ∈ AES.KEY_SIZES) ↔
      (key.length = 16 ∨ key.length = 24 ∨ key.length = 32) := by
    simp [AES.KEY_SIZES]
  by_cases hc : key.length ∉ AES.KEY_SIZES ∨ iv.length ≠ AES.BLOCK_SIZE
  · have herr : AES.init key iv = .error .SizeException := by
      unfold AES.init
      rw [if_pos hc]
    constructor
    · constructor
      · rintro ⟨inst, h⟩
        rw [herr] at h
        exact absurd h (by simp)
      · rintro ⟨hk, hiv⟩
        exfalso
        rcases hc with h | h
        · exact h (hmem.mpr hk)
        · exact h (by simpa [AES.BLOCK_SIZE] using hiv)
    · exact Or.inr herr
  · have hok : AES.init key iv = .ok ⟨key, iv⟩ := by
      unfold AES.init
      rw [if_neg hc]
    push_neg at hc
    constructor
    · constructor
      · intro _
        exact ⟨hmem.mp hc.1, by simpa [AES.BLOCK_SIZE] using hc.2⟩
      · intro _
        exact ⟨⟨key, iv⟩, hok⟩
    · exact Or.inl ⟨⟨key, iv⟩, hok⟩

/-- C10: encryption is a pure function of (key, iv, message): two instances
holding equal key and IV bytes produce identical ciphertext for the same
message (no hidden per-call state enters the computation). -/
theorem aes_encrypt_deterministic (aesE : Bytes → Bytes → Bytes) (a b : AESInst)
    (hkey : a.key = b.key) (hiv : a.iv = b.iv) (m : Bytes) :
    AES.encrypt aesE a m = AES.encrypt aesE b m := by
  rw [AES.encrypt, AES.encrypt, hkey, hiv]

/-- Witness for C10: two separately built instances with equal key and IV
bytes encrypt `[1, 2, 3]` identically. -/
theorem aes_encrypt_deterministic_witness :
    AES.encrypt (fun k b => xorBytes k b) instDemo [1, 2, 3] =
      AES.encrypt (fun k b => xorBytes k b) instDemo2 [1, 2, 3] :=
  aes_encrypt_deterministic (fun k b => xorBytes k b) instDemo instDemo2
    (by decide) (by decide) [1, 2, 3]

/-- C2: OAEP round trip. The wrapper passes OAEP(MGF1(SHA-256), SHA-256,
no label) on BOTH the encrypt and the decrypt side, so under the library's
contract — decryption inverts encryption whenever the two sides use the
same OAEP parameters and the message fits under the OAEP maximum —
`private.decrypt(public.encrypt(m)) == m`. -/
theorem rsa_oaep_round_trip (L : RSALib)
    (hlib : ∀ k p m r, m.length ≤ L.maxMsgLen →
      L.rsaDecrypt k p (L.rsaEncrypt (L.publicOf k) p m r) = .ok m)
    (priv : RSAPrivate) (m : Bytes) (hm : m.length ≤ L.maxMsgLen) (r : Nat) :
    RSAPrivate.decrypt L priv (RSAPublic.encrypt L ⟨L.publicOf priv.key⟩ m r) = .ok m := by
  unfold RSAPrivate.decrypt RSAPublic.encrypt
  exact hlib priv.key oaepSha256 m r hm

/-- Witness for C2: the demo library, private key handle 5, and the message
`[1, 2]` (length 2 ≤ the 190-byte OAEP maximum of a 2048-bit key). -/
theorem rsa_oaep_round_trip_witness :
    [1, 2].length ≤ libDemo.maxMsgLen ∧
    RSAPrivate.decrypt libDemo ⟨5⟩
      (RSAPublic.encrypt libDemo ⟨libDemo.publicOf 5⟩ [1, 2] 0) = .ok [1, 2] :=
  ⟨by decide,
   rsa_oaep_round_trip libDemo (fun _ _ _ _ _ => rfl) ⟨5⟩ [1, 2] (by decide) 0⟩

/-- C5: `verify` always returns a boolean and never raises: the wrapper
catches exactly `InvalidSignature`, and under the library's contract that
verification failure is reported only through `InvalidSignature`, the result
is `.ok b` with `b = true` precisely when the library accepted the
signature. -/
theorem verify_returns_bool_never_raises (L : RSALib) (pub : RSAPublic) (sig msg : Bytes)
    (hlib : ∀ e, L.rsaVerifyRaw pub.key pssMaxSha256 .SHA256 sig msg = .error e →
      e = .InvalidSignature) :
    ∃ b : Bool, RSAPublic.verify L pub sig msg = .ok b ∧
      (b = true ↔ ∃ u, L.rsaVerifyRaw pub.key pssMaxSha256 .SHA256 sig msg = .ok u) := by
  unfold RSAPublic.verify
  cases hraw : L.rsaVerifyRaw pub.key pssMaxSha256 .SHA256 sig msg with
  | ok u => exact ⟨true, rfl, by simp⟩
  | error e =>
      have he : e = .InvalidSignature := hlib e hraw
      subst he
      exact ⟨false, rfl, by simp⟩

/-- Witness for C5: the demo library with an invalid signature (`[1]` over
message `[2]`) — the wrapper returns `.ok false` rather than raising. -/
theorem verify_returns_bool_never_raises_witness :
    ∃ b : Bool, RSAPublic.verify libDemo ⟨0⟩ [1] [2] = .ok b ∧
      (b = true ↔ ∃ u, libDemo.rsaVerifyRaw (RSAPublic.mk 0).key pssMaxSha256 .SHA256 [1] [2] = .ok u) :=
  verify_returns_bool_never_raises libDemo ⟨0⟩ [1] [2]
    (fun e h => by
      simp only [libDemo] at h
      rw [if_neg (by decide)] at h
      exact (Except.error.inj h).symm)

/-- C6: signatures verify. The wrapper passes PSS(MGF1(SHA-256), maximum
salt) and SHA-256 on BOTH the sign and the verify side, so under the
library's contract — a signature produced with some PSS parameters verifies
under the matching public key with the same parameters —
`public.verify(private.sign(m), m)` returns `True`. -/
theorem rsa_sign_verify_round_trip (L : RSALib)
    (hlib : ∀ k p a m r, L.rsaVerifyRaw (L.publicOf k) p a (L.rsaSign k p a m r) m = .ok ())
    (priv : RSAPrivate) (m : Bytes) (r : Nat) :
    RSAPublic.verify L ⟨L.publicOf priv.key⟩ (RSAPrivate.sign L priv m r) m = .ok true := by
  unfold RSAPublic.verify RSAPrivate.sign
  rw [hlib priv.key pssMaxSha256 .SHA256 m r]

/-- Witness for C6: the demo library, private key handle 5, message
`[3, 4]`. -/
theorem rsa_sign_verify_round_trip_witness :
    RSAPublic.verify libDemo ⟨libDemo.publicOf 5⟩
      (RSAPrivate.sign libDemo ⟨5⟩ [3, 4] 0) [3, 4] = .ok true :=
  rsa_sign_verify_round_trip libDemo
    (fun _ _ _ m _ => by simp [libDemo]) ⟨5⟩ [3, 4] 0

/-- C7 counterexample: decrypting the 1-byte ciphertext `[1]` (length not a
multiple of 16) fails with the library's `ValueError`, which is NOT a
subclass of the module's crypto-error root `CryptoException` — the module
defines no `PaddingOrFormatError` at all and catches nothing in
`AES.decrypt`. -/
theorem crypto_error_root_cex :
    AES.decrypt (fun _ b => b) instDemo [1] = .error .ValueError ∧
    PyExc.isSubclassOf .ValueError .CryptoException = false := by
  decide

/-- C7 amended: symmetric decryption of a ciphertext whose length is not a
multiple of 16, or whose decrypted buffer carries malformed PKCS7 padding,
fails with the underlying library's `ValueError` — an exception outside the
module's crypto-error taxonomy, whose only member below the root
`CryptoException` is `SizeException`. -/
theorem crypto_error_taxonomy_amended (aesD : Bytes → Bytes → Bytes) (inst : AESInst)
    (ct : Bytes)
    (hbad : ct.length % 16 ≠ 0 ∨
      pkcs7PaddingOk ((cbcDecryptBlocks (aesD inst.key) inst.iv (chunks16 ct)).flatten)
        = false) :
    AES.decrypt aesD inst ct = .error .ValueError ∧
    PyExc.isSubclassOf .ValueError .CryptoException = false ∧
    PyExc.isSubclassOf .SizeException .CryptoException = true := by
  refine ⟨?_, by decide, by decide⟩
  unfold AES.decrypt
  by_cases hlen : ct.length % 16 ≠ 0
  · rw [if_pos (by simpa [AES.BLOCK_SIZE] using hlen)]
  · rcases hbad with h | h
    · exact absurd h hlen
    · rw [if_neg (by simpa [AES.BLOCK_SIZE] using hlen)]
      unfold pkcs7Unpad
      by_cases h0 :
          ((cbcDecryptBlocks (aesD inst.key) inst.iv (chunks16 ct)).flatten).length = 0 ∨
          ((cbcDecryptBlocks (aesD inst.key) inst.iv (chunks16 ct)).flatten).length %
            AES.BLOCK_SIZE ≠ 0
      · rw [if_pos h0]
      · rw [if_neg h0, if_neg (by simp [h])]

/-- Witness for the amended C7: the identity block cipher, the demo
instance, and the bad-length ciphertext `[1]`. -/
theorem crypto_error_taxonomy_amended_witness :
    ([1] : Bytes).length % 16 ≠ 0 ∧
    (AES.decrypt (fun _ b => b) instDemo [1] = .error .ValueError ∧
      PyExc.isSubclassOf .ValueError .CryptoException = false ∧
      PyExc.isSubclassOf .SizeException .CryptoException = true) :=
  ⟨by decide,
   crypto_error_taxonomy_amended (fun _ b => b) instDemo [1] (Or.inl (by decide))⟩

/-- C8 counterexample: `generate_key(15)` succeeds — it returns a 15-byte
key and a 16-byte IV even though 15 is not an accepted key size; the source
performs no validation of `key_size`. -/
theorem generate_key_accepts_any_size_cex :
    (AES.generate_key (fun _ => 0) (fun _ => 0) 15).1.length = 15 ∧
    (AES.generate_key (fun _ => 0) (fun _ => 0) 15).2.length = 16 ∧
    (15 : Nat) ∉ AES.KEY_SIZES := by
  decide

/-- C8 amended: `AES.generate_key` validates nothing: for EVERY `key_size`
it succeeds, returning a key of exactly `key_size` random bytes and an IV of
exactly 16 random bytes; sizes outside {16, 24, 32} are only rejected later,
when the key reaches the `AES` constructor. -/
theorem generate_key_lengths (s1 s2 : Nat → Nat) (key_size : Nat) :
    (AES.generate_key s1 s2 key_size).1.length = key_size ∧
    (AES.generate_key s1 s2 key_size).2.length = 16 := by
  simp [AES.generate_key, AES.tokenBytes, AES.BLOCK_SIZE]

/-- C9 counterexample, at the demo library (whose `BestAvailableEncryption`
output depends on the PBES2 salt, like the real library's): loading with a
wrong password fails with the library's `ValueError` — the module defines no
`ParseError` and `AES`'s root `CryptoException` has no such subclass — and
a repeated `format_pem(pw)` call with fresh randomness is NOT byte-stable. -/
theorem pem_round_trip_cex :
    RSAPrivate.load_pem libDemo (RSAPrivate.format_pem libDemo ⟨5⟩ (some [7]) 0)
      (some [8]) = .error .ValueError ∧
    PyExc.isSubclassOf .ValueError .CryptoException = false ∧
    RSAPrivate.format_pem libDemo ⟨5⟩ (some [7]) 1 ≠
      RSAPrivate.format_pem libDemo ⟨5⟩ (some [7]) 0 := by
  decide

/-- C9 amended: under the library's contract (PEM round trip recovers the
key; unencrypted serialization is deterministic; a wrong password fails with
`ValueError`), the wrapper gives: byte-stable re-serialization for the
no-password case; semantic round trip (the same key object) for the
password case, where re-serialization under fresh PBES2 randomness need not
be byte-stable; and a wrong password fails with the library's `ValueError`,
which is not part of the module's crypto-error taxonomy. -/
theorem pem_round_trip_amended (L : RSALib) (priv : RSAPrivate)
    (pw wrongPw : Bytes) (hw : wrongPw ≠ pw) (r r2 : Nat)
    (hload_none : ∀ k r_1,
      L.loadPemPrivateKey (L.privateBytes k .NoEncryption r_1) none = .ok k)
    (hload_some : ∀ k p r_1,
      L.loadPemPrivateKey (L.privateBytes k (.BestAvailableEncryption p) r_1) (some p)
        = .ok k)
    (hdet_none : ∀ k r_1 r_2,
      L.privateBytes k .NoEncryption r_1 = L.privateBytes k .NoEncryption r_2)
    (hwrong : ∀ k p q r_1, q ≠ p →
      L.loadPemPrivateKey (L.privateBytes k (.BestAvailableEncryption p) r_1) (some q)
        = .error .ValueError) :
    (RSAPrivate.load_pem L (RSAPrivate.format_pem L priv none r) none = .ok priv ∧
      RSAPrivate.format_pem L priv none r2 = RSAPrivate.format_pem L priv none r) ∧
    RSAPrivate.load_pem L (RSAPrivate.format_pem L priv (some pw) r) (some pw)
      = .ok priv ∧
    (RSAPrivate.load_pem L (RSAPrivate.format_pem L priv (some pw) r) (some wrongPw)
      = .error .ValueError ∧
      PyExc.isSubclassOf .ValueError .CryptoException = false) := by
  refine ⟨⟨?_, ?_⟩, ?_, ?_, by decide⟩
  · unfold RSAPrivate.load_pem RSAPrivate.format_pem
    rw [hload_none priv.key r]
    rfl
  · unfold RSAPrivate.format_pem
    exact hdet_none priv.key r2 r
  · unfold RSAPrivate.load_pem RSAPrivate.format_pem
    rw [hload_some priv.key pw r]
    rfl
  · unfold RSAPrivate.load_pem RSAPrivate.format_pem
    rw [hwrong priv.key pw wrongPw r hw]
    rfl

/-- Witness for the amended C9: the demo library, key handle 5, password
`[7]`, wrong password `[8]`, and fresh serialization randomness 0 and 1. -/
theorem pem_round_trip_amended_witness :
    ([8] : Bytes) ≠ [7] ∧
    ((RSAPrivate.load_pem libDemo (RSAPrivate.format_pem libDemo ⟨5⟩ none 0) none
        = .ok ⟨5⟩ ∧
      RSAPrivate.format_pem libDemo ⟨5⟩ none 1 = RSAPrivate.format_pem libDemo ⟨5⟩ none 0) ∧
    RSAPrivate.load_pem libDemo (RSAPrivate.format_pem libDemo ⟨5⟩ (some [7]) 0)
      (some [7]) = .ok ⟨5⟩ ∧
    (RSAPrivate.load_pem libDemo (RSAPrivate.format_pem libDemo ⟨5⟩ (some [7]) 0)
      (some [8]) = .error .ValueError ∧
      PyExc.isSubclassOf .ValueError .CryptoException = false)) :=
  ⟨by decide,
   pem_round_trip_amended libDemo ⟨5⟩ [7] [8] (by decide) 0 1
     (fun k r => by simp [libDemo])
     (fun k p r => by simp [libDemo])
     (fun k r r2 => by simp [libDemo])
     (fun k p q r hqp => by
       simp only [libDemo]
       rw [if_neg (fun h => hqp h.symm)])⟩
